import Mathlib

/-!
Verification development for the llm-council backend.

Texts are modelled as `List Char`.  An anonymized label `"Response X"` is
represented by the code point of its letter `X` (so `"Response A"` is `65`),
which is a bijective renaming of the label strings built by
`stage2_collect_rankings` and matched by the ranking parser's regexes.
Character classes model the ASCII behaviour of the Python regexes
(`\s`, `\d`, `[A-Z]`), which is exhaustive for the label grammar at hand.
Network-bound model invocations (`query_model` / `query_models_parallel`)
are passed in as explicit result values, one per call site.
-/

/-- ASCII whitespace, modelling Python's `\s` and `str.strip()` on the
ASCII plane. -/
def isWsChar (c : Char) : Bool :=
  c = ' ' || c = '\t' || c = '\n' || c = '\r' || c = '\x0b' || c = '\x0c'

/-- Model of the regex class `[A-Z]`. -/
def isUpperAZ (c : Char) : Bool :=
  65 ≤ c.toNat && c.toNat ≤ 90

/-- Model of the regex class `\d` (ASCII digits). -/
def isDigitChar (c : Char) : Bool :=
  48 ≤ c.toNat && c.toNat ≤ 57

/-- `startsWithChars hay needle` holds when `needle` is an initial segment
of `hay`. -/
def startsWithChars : List Char → List Char → Bool
  | _, [] => true
  | [], _ :: _ => false
  | c :: cs, d :: ds => c = d && startsWithChars cs ds

/-- Length of the maximal initial run of characters satisfying `p`. -/
def countWhile (p : Char → Bool) : List Char → Nat
  | [] => 0
  | c :: rest => if p c then countWhile p rest + 1 else 0

/-- Text after the first occurrence of `pat`, or `none` when `pat` does not
occur; models Python's `pat in text` / `text.split(pat)[1:]`. -/
def dropThroughFirst (pat : List Char) : List Char → Option (List Char)
  | [] => none
  | c :: rest =>
    if startsWithChars (c :: rest) pat then some ((c :: rest).drop pat.length)
    else (dropThroughFirst pat rest)

/-- Text before the next occurrence of `pat`; together with
`dropThroughFirst` this models `text.split(pat)[1]`. -/
def takeUntilMarker (pat : List Char) : List Char → List Char
  | [] => []
  | c :: rest =>
    if startsWithChars (c :: rest) pat then []
    else c :: takeUntilMarker pat rest

/-- The literal marker line looked up by the ranking parser. -/
def FINAL_RANKING_MARKER : List Char := ("FINAL RANKING:").data

/-- The nine characters preceding a label letter in a label token. -/
def RESPONSE_PAT : List Char := ("Response ").data

/-- If `t` begins with a full label token `Response X` with `X ∈ [A-Z]`,
return the letter's code point. -/
def labelAt (t : List Char) : Option Nat :=
  if startsWithChars t RESPONSE_PAT then
    match t.drop 9 with
    | u :: _ => if isUpperAZ u then some u.toNat else none
    | [] => none
  else none

/-- Scanner for `re.findall(r'Response [A-Z]', t)`: `skip` counts characters
still to pass over from the previous (non-overlapping) match. -/
def findLabelsAux : Nat → List Char → List Nat
  | _, [] => []
  | skip + 1, _ :: rest => findLabelsAux skip rest
  | 0, c :: rest =>
    match labelAt (c :: rest) with
    | some u => u :: findLabelsAux 9 rest
    | none => findLabelsAux 0 rest

/-- Model of `re.findall(r'Response [A-Z]', t)`: all non-overlapping label
tokens, left to right (a token has length 10). -/
def findLabels (t : List Char) : List Nat :=
  findLabelsAux 0 t

/-- Matcher for `\d+\.\s*Response [A-Z]` anchored at the head of `t`:
returns the label letter's code point and the match length.  Greedy runs
with disjoint follow sets make the regex deterministic. -/
def numberedAt (t : List Char) : Option (Nat × Nat) :=
  if countWhile isDigitChar t = 0 then none
  else
    match t.drop (countWhile isDigitChar t) with
    | '.' :: r1 =>
      match labelAt (r1.drop (countWhile isWsChar r1)) with
      | some u =>
        some (u, countWhile isDigitChar t + 1 + countWhile isWsChar r1 + 10)
      | none => none
    | _ => none

/-- Scanner for `re.findall(r'\d+\.\s*Response [A-Z]', t)` with a skip
counter for the tail of the previous match. -/
def findNumberedLabelsAux : Nat → List Char → List Nat
  | _, [] => []
  | skip + 1, _ :: rest => findNumberedLabelsAux skip rest
  | 0, c :: rest =>
    match numberedAt (c :: rest) with
    | some (u, len) => u :: findNumberedLabelsAux (len - 1) rest
    | none => findNumberedLabelsAux 0 rest

/-- Model of `re.findall(r'\d+\.\s*Response [A-Z]', t)`, already reduced to
the label of each match (the code applies `re.search(r'Response [A-Z]', m)`
to every match `m`, which recovers exactly its trailing label token). -/
def findNumberedLabels (t : List Char) : List Nat :=
  findNumberedLabelsAux 0 t

/-- `parse_ranking_from_text` (council.py): three-tier fallback parser for
the `FINAL RANKING:` section. -/
def parse_ranking_from_text (ranking_text : List Char) : List Nat :=
  match dropThroughFirst FINAL_RANKING_MARKER ranking_text with
  | some afterMarker =>
    let ranking_section := takeUntilMarker FINAL_RANKING_MARKER afterMarker
    let numbered := findNumberedLabels ranking_section
    if numbered ≠ [] then numbered
    else findLabels ranking_section
  | none => findLabels ranking_text

example : parse_ranking_from_text ("FINAL RANKING:\n1. Response C\n2. Response A\n3. Response B").data
    = [67, 65, 66] := by decide

example : parse_ranking_from_text ("Response A and Response A again").data = [65, 65] := by decide

example : parse_ranking_from_text ("no labels here").data = [] := by decide

example : parse_ranking_from_text ("FINAL RANKING:\nResponse B then Response A").data
    = [66, 65] := by decide

/-- One Stage-1 result: `{"model": ..., "response": ...}`. -/
structure CouncilResponse where
  model : String
  response : String
deriving DecidableEq

/-- One Stage-2 result: `{"model": ..., "ranking": ..., "parsed_ranking": ...}`. -/
structure RankingSubmission where
  model : String
  ranking : List Char
  parsed_ranking : List Nat
deriving DecidableEq

/-- One entry of the aggregate ranking:
`{"model": ..., "average_rank": ..., "rankings_count": ...}`.
`round(avg_rank, 2)` always yields a multiple of 1/100, which is stored
exactly as its integer number of hundredths in `average_rank_cents`
(so `average_rank_cents = 150` renders as `1.5`). -/
structure AggregateRank where
  model : String
  average_rank_cents : Nat
  rankings_count : Nat
deriving DecidableEq

/-- The rational value of an entry's `average_rank` field. -/
def AggregateRank.average_rank (e : AggregateRank) : ℚ :=
  (e.average_rank_cents : ℚ) / 100

/-- `stage1_collect_responses` (council.py): keep, in fan-out order, the
responses of the models that answered; failed models are omitted.  The
`responses` argument is the result of the `query_models_parallel` call. -/
def stage1_collect_responses (responses : List (String × Option String)) :
    List CouncilResponse :=
  responses.filterMap (fun p => p.2.map (fun txt => ⟨p.1, txt⟩))

/-- The label codes `chr(65 + i)` assigned to `n` Stage-1 results. -/
def stage2_labels (n : Nat) : List Nat :=
  (List.range n).map (fun i => 65 + i)

/-- `stage2_collect_rankings` (council.py): builds the label→model map in
collection order and parses every successful reviewer response.  The
`responses` argument is the result of the `query_models_parallel` call. -/
def stage2_collect_rankings (stage1_results : List CouncilResponse)
    (responses : List (String × Option String)) :
    List RankingSubmission × List (Nat × String) :=
  let labels := stage2_labels stage1_results.length
  let label_to_model :=
    (labels.zip stage1_results).map (fun p => (p.1, p.2.model))
  let stage2_results :=
    responses.filterMap (fun p =>
      p.2.map (fun txt => ⟨p.1, txt.data, parse_ranking_from_text txt.data⟩))
  (stage2_results, label_to_model)

/-- First-match association-list lookup, the model of a Python dict keyed
by label code (`stage2_collect_rankings` never creates duplicate keys). -/
def dictFind (ltm : List (Nat × String)) (k : Nat) : Option String :=
  (ltm.find? (fun p => p.1 = k)).map (fun p => p.2)

/-- `model_positions[model_name].append(position)` on an insertion-ordered
tally, creating the entry at the end when absent (defaultdict behaviour). -/
def addPosition (tally : List (String × List Nat)) (m : String) (p : Nat) :
    List (String × List Nat) :=
  match tally with
  | [] => [(m, [p])]
  | e :: rest =>
    if e.1 = m then (e.1, e.2 ++ [p]) :: rest
    else e :: addPosition rest m p

/-- The inner loop of `calculate_aggregate_rankings`: record every mapped
label of one parsed ranking at its 1-based position. -/
def recordParsed (ltm : List (Nat × String)) (tally : List (String × List Nat))
    (parsed : List Nat) : List (String × List Nat) :=
  parsed.enum.foldl (fun t iu =>
    match dictFind ltm iu.2 with
    | some m => addPosition t m (iu.1 + 1)
    | none => t) tally

/-- Python's `round(sum(positions) / len(positions), 2)` in hundredths:
`⌊100 · s / n + 1/2⌋` computed in natural arithmetic.  (CPython rounds the
nearest double half-to-even; this agrees on every value that does not sit on
a half-cent or double-representation boundary, which none of the values
considered here do.) -/
def roundCents (s n : Nat) : Nat :=
  (200 * s + n) / (2 * n)

/-- Stable ascending insertion by `average_rank`: a new element goes after
every element whose key is `≤` its own, as in Python's stable `list.sort`.
Comparing the hundredths compares the rounded averages themselves. -/
def insertByRank (x : AggregateRank) : List AggregateRank → List AggregateRank
  | [] => [x]
  | y :: ys =>
    if y.average_rank_cents ≤ x.average_rank_cents then y :: insertByRank x ys
    else x :: y :: ys

/-- Stable sort by `average_rank` (ascending), the model of
`aggregate.sort(key=lambda x: x['average_rank'])`. -/
def sortByRank (l : List AggregateRank) : List AggregateRank :=
  l.foldl (fun acc x => insertByRank x acc) []

/-- `calculate_aggregate_rankings` (council.py): re-parse every submission's
raw `ranking` text, tally 1-based positions per mapped model in first-insertion
order, average, round to two decimals, and stable-sort ascending. -/
def calculate_aggregate_rankings (stage2_results : List RankingSubmission)
    (label_to_model : List (Nat × String)) : List AggregateRank :=
  sortByRank
    ((stage2_results.foldl
        (fun t r => recordParsed label_to_model t (parse_ranking_from_text r.ranking))
        []).filterMap
      (fun e =>
        if e.2 ≠ [] then
          some ⟨e.1, roundCents e.2.sum e.2.length, e.2.length⟩
        else none))

/-- A ranking submission as stored by Stage 2 (the `parsed_ranking` field is
not read by the aggregator, which re-parses the raw text). -/
def mkSubmission (reviewer : String) (text : String) : RankingSubmission :=
  ⟨reviewer, text.data, parse_ranking_from_text text.data⟩

example :
    calculate_aggregate_rankings
      [mkSubmission "rev1" "FINAL RANKING:\n1. Response C\n2. Response A\n3. Response B",
       mkSubmission "rev2" "FINAL RANKING:\n1. Response A\n2. Response C\n3. Response B"]
      [(65, "model-a"), (66, "model-b"), (67, "model-c")]
    = [⟨"model-c", 150, 2⟩, ⟨"model-a", 150, 2⟩, ⟨"model-b", 300, 2⟩] := by
  decide

/-- The sentence-ending punctuation class `[.!?]`. -/
def isPunctSB (c : Char) : Bool :=
  c = '.' || c = '!' || c = '?'

/-- After a punctuation character: at least one whitespace character and
then an `[A-Z]` letter (the deterministic reading of `\s+(?=[A-Z])`,
whitespace and upper case being disjoint). -/
def wsRunThenUpper : List Char → Bool
  | [] => false
  | c :: rest => isWsChar c && wsThenUpperTail rest
where
  wsThenUpperTail : List Char → Bool
    | [] => false
    | c :: rest => if isWsChar c then wsThenUpperTail rest else isUpperAZ c

/-- Model of `re.search(r'[.!?]\s+(?=[A-Z])', t)`: index of the leftmost
match, if any.  (`truncate_with_sentence_boundary` runs this on the
reversed prefix, so a hit corresponds to `[A-Z]\s+[.!?]` in reading
order — a quirk preserved from the source.) -/
def searchRevBoundary : List Char → Option Nat
  | [] => none
  | c :: rest =>
    if isPunctSB c && wsRunThenUpper rest then some 0
    else (searchRevBoundary rest).map (fun i => i + 1)

/-- Model of `re.search(r'[.!?]\s+', t)`: the end index of the leftmost
match (punctuation plus its maximal whitespace run), if any. -/
def searchPunctWsEnd : List Char → Option Nat
  | [] => none
  | c :: rest =>
    if isPunctSB c && (match rest with | [] => false | d :: _ => isWsChar d) then
      some (1 + countWhile isWsChar rest)
    else (searchPunctWsEnd rest).map (fun i => i + 1)

/-- Index of the last `'.'`, the model of `truncated.rfind('.')` when it
does not return `-1`. -/
def rfindDot (t : List Char) : Option Nat :=
  (t.reverse.findIdx? (fun c => c = '.')).map (fun i => t.length - 1 - i)

/-- `truncate_with_sentence_boundary` (prompt_optimizer.py).  Notable
Python details kept: `truncated[:-(match.start())]` is empty when the match
starts at index 0; `last_period > max_chars * 0.5` is `2·lp > max_chars`
exactly; a missing period (`rfind` = -1) fails that comparison. -/
def truncate_with_sentence_boundary (text : List Char) (max_chars : Nat)
    (preserve_end : Bool) : List Char :=
  if text.length ≤ max_chars then text
  else if preserve_end then
    match searchPunctWsEnd (text.drop (text.length - max_chars)) with
    | some e => (text.drop (text.length - max_chars)).drop e
    | none => text.drop (text.length - max_chars)
  else
    match searchRevBoundary (text.take max_chars).reverse with
    | some s =>
      if s = 0 then []
      else (text.take max_chars).take ((text.take max_chars).length - s)
    | none =>
      match rfindDot (text.take max_chars) with
      | some lp =>
        if 2 * lp > max_chars then (text.take max_chars).take (lp + 1)
        else text.take max_chars ++ ("...").data
      | none => text.take max_chars ++ ("...").data

example :
    truncate_with_sentence_boundary ("a. bcdefghijk").data 10 false
      = ("a. bcdefgh...").data := by decide

example :
    truncate_with_sentence_boundary ("One two. Three four five six seven.").data 20 false
      = ("One two. Three four ...").data := by decide

example :
    truncate_with_sentence_boundary ("aaaaaaaaa. bcdefghijklm").data 14 false
      = ("aaaaaaaaa.").data := by decide

/-- The loop of `chunk_text` (rag.py), with explicit fuel: `none` means the
fuel ran out before the loop finished.  `chunk_size` and `overlap` are the
non-negative integers the callers pass (`text[start:start+chunk_size]` is
`(drop start).take chunk_size`; the step is the truncated difference). -/
def chunk_text_loop (text : List Char) (chunk_size overlap : Nat) :
    Nat → Nat → Option (List (List Char))
  | 0, _ => none
  | fuel + 1, start =>
    if start < text.length then
      match chunk_text_loop text chunk_size overlap fuel (start + (chunk_size - overlap)) with
      | some rest => some (((text.drop start).take chunk_size) :: rest)
      | none => none
    else some []

/-- `chunk_text` (rag.py): when `chunk_size > overlap` the loop advances at
least one position per iteration, so `text.length + 1` rounds of fuel always
suffice. -/
def chunk_text (text : List Char) (chunk_size overlap : Nat) : List (List Char) :=
  (chunk_text_loop text chunk_size overlap (text.length + 1) 0).getD []

/-- Number of text positions covered by both chunk `i` and chunk `i + 1`:
chunk `i` covers `[i·step, min (i·step + chunk_size) len)` and the next
starts at `(i+1)·step`. -/
def chunkOverlap (text : List Char) (chunk_size overlap i : Nat) : Nat :=
  min (i * (chunk_size - overlap) + chunk_size) text.length
    - (i + 1) * (chunk_size - overlap)

example : chunk_text ("abcde").data 4 2
    = [("abcd").data, ("cde").data, ("e").data] := by decide

example : chunkOverlap ("abcde").data 4 2 1 = 1 := by decide

/-- One clarifying question `{"text": ..., "options": [...]}`. -/
structure ClarQuestion where
  text : String
  options : List String
deriving DecidableEq

/-- The clarifier's JSON result object; absent keys are `none`/`[]`. -/
structure ClarityResult where
  sufficient : Bool
  reasoning : Option String
  questions : List ClarQuestion
  refined_topic : Option String
deriving DecidableEq

/-- `{"sufficient": True, "reasoning": ..., "refined_topic": latest}` — the
fail-open result of `assess_clarity`'s `except` branch. -/
def clarityFallback (latest_user_message : String) : ClarityResult :=
  ⟨true, some "Error in clarification check, proceeding.", [], some latest_user_message⟩

/-- Remove every (non-overlapping, leftmost-first) occurrence of `pat`,
modelling `str.replace(pat, "")`; `skip` passes over the tail of a removed
occurrence. -/
def removeSubAux (pat : List Char) : Nat → List Char → List Char
  | _, [] => []
  | skip + 1, _ :: rest => removeSubAux pat skip rest
  | 0, c :: rest =>
    if startsWithChars (c :: rest) pat then removeSubAux pat (pat.length - 1) rest
    else c :: removeSubAux pat 0 rest

/-- `t.replace(pat, "")` for a non-empty pattern. -/
def removeSub (pat t : List Char) : List Char :=
  removeSubAux pat 0 t

/-- `str.strip()` on the ASCII whitespace plane. -/
def stripWs (t : List Char) : List Char :=
  ((t.dropWhile isWsChar).reverse.dropWhile isWsChar).reverse

/-- The code-fence cleanup of `assess_clarity`:
`content.replace("```json", "").replace("```", "")` when the content starts
with a json fence, `content.replace("```", "")` when it starts with a bare
fence, unchanged otherwise. -/
def stripCodeFences (content : List Char) : List Char :=
  if startsWithChars content ("```json").data then
    removeSub ("```").data (removeSub ("```json").data content)
  else if startsWithChars content ("```").data then
    removeSub ("```").data content
  else content

/-- `assess_clarity` (clarifier.py), after prompt construction.  `response`
is the `query_model` result (`none` covers both `None` and a raised
transport error) holding the reply's `content`; `parse_json` stands for
`json.loads`, with `none` for a raised `JSONDecodeError`.  Any failure in
the `try` block lands in the fail-open fallback. -/
def assess_clarity (parse_json : List Char → Option ClarityResult)
    (response : Option (List Char)) (latest_user_message : String) : ClarityResult :=
  match response with
  | none => clarityFallback latest_user_message
  | some content =>
    match parse_json (stripWs (stripCodeFences content)) with
    | some result => result
    | none => clarityFallback latest_user_message

/-- A stored conversation message as the clarification logic reads it:
its role plus the `is_clarification` / `is_final_clarification` flags
(`m.get(flag)` is `False` when the key is absent). -/
structure ConvMessage where
  role : String
  content : String
  is_clarification : Bool
  is_final_clarification : Bool
deriving DecidableEq

/-- `sum(1 for m in conversation["messages"] if m.get("is_clarification"))`. -/
def clarification_count (messages : List ConvMessage) : Nat :=
  (messages.filter (fun m => m.is_clarification)).length

/-- What `send_message_stream` does about the clarifier on one turn:
either skip the assessment call entirely (max rounds) or invoke it with a
given `force_followup` flag. -/
inductive ClarityAction where
  | skipAssessment (result : ClarityResult)
  | callAssessment (force_followup : Bool)
deriving DecidableEq

/-- The round-count branch of `send_message_stream` (main.py): at 4 or more
prior clarification rounds, sufficient unconditionally; otherwise assess,
forcing a follow-up below 2 rounds. -/
def clarificationDecision (count : Nat) : ClarityAction :=
  if count ≥ 4 then
    .skipAssessment ⟨true, none, [], some "Max rounds reached"⟩
  else
    .callAssessment (count < 2)

/-- `next((m for m in reversed(messages) if m["role"] == "assistant"), None)`. -/
def lastAssistant (messages : List ConvMessage) : Option ConvMessage :=
  messages.reverse.find? (fun m => m.role = "assistant")

/-- `last_assistant_msg and last_assistant_msg.get("is_final_clarification")`. -/
def isFinalCheckDone (messages : List ConvMessage) : Bool :=
  match lastAssistant messages with
  | some m => m.is_final_clarification
  | none => false

/-- `SEARCH_MODEL` (config.py). -/
def SEARCH_MODEL : String := "perplexity/sonar-pro-search"

/-- `CHAIRMAN_MODEL` (config.py). -/
def CHAIRMAN_MODEL : String := "google/gemini-3-pro-preview"

/-- ASCII upper-casing of a text, modelling `str.upper()` on the replies
the search gate compares against the literal `"YES"`. -/
def toUpperChars (t : List Char) : List Char :=
  t.map Char.toUpper

/-- `check_search_necessity` (council.py): `None` → no search; otherwise
compare the stripped, upper-cased content with `"YES"`. -/
def check_search_necessity (response : Option String) : Bool :=
  match response with
  | none => false
  | some content => toUpperChars (stripWs content.data) = ("YES").data

/-- Stage-0 outcome `{"model", "response", "searched"}` as the pipeline
branches on it. -/
structure Stage0Result where
  model : String
  response : Option String
  searched : Bool
deriving DecidableEq

/-- `{"model": SEARCH_MODEL, "response": None, "searched": False}`. -/
def stage0Default : Stage0Result := ⟨SEARCH_MODEL, none, false⟩

/-- `stage3_synthesize_final` (council.py), reduced to its result handling:
a failed chairman call yields the synthetic error object. -/
def stage3_synthesize_final (chairmanResponse : Option String) : CouncilResponse :=
  match chairmanResponse with
  | none => ⟨CHAIRMAN_MODEL, "Error: Unable to generate final synthesis."⟩
  | some content => ⟨CHAIRMAN_MODEL, content⟩

/-- The metadata dict of a completed run. -/
structure CouncilMetadata where
  label_to_model : List (Nat × String)
  aggregate_rankings : List AggregateRank
deriving DecidableEq

/-- The 5-tuple returned by `run_full_council`; `metadata = none` models
the empty `{}` of the short-circuit return. -/
structure CouncilRunResult where
  stage0 : Stage0Result
  stage1 : List CouncilResponse
  stage2 : List RankingSubmission
  stage3 : CouncilResponse
  metadata : Option CouncilMetadata
deriving DecidableEq

/-- `run_full_council` (council.py).  Each network call site is an explicit
argument: `utilityResponse` feeds `check_search_necessity`, `stage0Oracle`
is the `stage0_web_search` result, `stage1Responses` / `stage2Responses`
are the two `query_models_parallel` results and `chairmanResponse` the
chairman call.  When Stage 1 collects nothing the run short-circuits to the
synthetic error tuple without reaching Stage 2 or 3. -/
def run_full_council (utilityResponse : Option String) (stage0Oracle : Stage0Result)
    (stage1Responses stage2Responses : List (String × Option String))
    (chairmanResponse : Option String) : CouncilRunResult :=
  let needs_search := check_search_necessity utilityResponse
  let stage0_result := if needs_search then stage0Oracle else stage0Default
  let stage1_results := stage1_collect_responses stage1Responses
  if stage1_results = [] then
    ⟨stage0_result, [], [],
      ⟨"error", "All models failed to respond. Please try again."⟩, none⟩
  else
    let stage2 := stage2_collect_rankings stage1_results stage2Responses
    let aggregate_rankings := calculate_aggregate_rankings stage2.1 stage2.2
    let stage3_result := stage3_synthesize_final chairmanResponse
    ⟨stage0_result, stage1_results, stage2.1, stage3_result,
      some ⟨stage2.2, aggregate_rankings⟩⟩

/-- The ordered event types emitted by `send_message_stream`'s generator
(main.py), for one turn that raises no exception.  Every network call site
is an oracle argument as in `run_full_council`.  After
`clarification_complete` the generator emits every stage frame
unconditionally — in particular it never branches on `stage1_results`
being empty. -/
def send_message_stream_events (messages : List ConvMessage)
    (assessOracle : Bool → ClarityResult)
    (stage1Responses : List (String × Option String))
    (isFirstMessage : Bool) : List String :=
  let clarity_result :=
    match clarificationDecision (clarification_count messages) with
    | .skipAssessment r => r
    | .callAssessment force => assessOracle force
  ("clarification_start") ::
  (if clarity_result.sufficient = false then
    [("clarification_needed"), ("complete")]
  else if isFinalCheckDone messages = false then
    [("clarification_needed"), ("complete")]
  else
    let _stage1_results := stage1_collect_responses stage1Responses
    [("clarification_complete"),
     ("stage0_start"), ("stage0_complete"),
     ("stage1_start"), ("stage1_complete"),
     ("stage2_start"), ("stage2_complete"),
     ("stage3_start"), ("stage3_complete"),
     ("stage4_start"), ("stage4_complete")] ++
    (if isFirstMessage then [("title_complete")] else []) ++ [("complete")])

/-- The `(model, 1-based position)` pairs one submission contributes to the
tally, in processing order: one pair per occurrence of a mapped label in
the re-parsed ranking text, unmapped labels contributing nothing. -/
def pairsOfSubmission (ltm : List (Nat × String)) (r : RankingSubmission) :
    List (String × Nat) :=
  (parse_ranking_from_text r.ranking).enum.filterMap
    (fun iu => (dictFind ltm iu.2).map (fun m => (m, iu.1 + 1)))

/-- The 1-based positions recorded for model `m` in one submission. -/
def positionsInSubmission (ltm : List (Nat × String)) (m : String)
    (r : RankingSubmission) : List Nat :=
  (parse_ranking_from_text r.ranking).enum.filterMap
    (fun iu => if dictFind ltm iu.2 = some m then some (iu.1 + 1) else none)

/-- All positions recorded for model `m` across the submissions, in
processing order — the reference value of `model_positions[m]`. -/
def specPositions (results : List RankingSubmission) (ltm : List (Nat × String))
    (m : String) : List Nat :=
  results.flatMap (positionsInSubmission ltm m)

/-- The positions list stored in the tally under key `m` (empty when the
key is absent), reading the first matching entry like a Python dict. -/
def valueAt (tally : List (String × List Nat)) (m : String) : List Nat :=
  ((tally.find? (fun e => e.1 = m)).map (fun e => e.2)).getD []

/-- C1, counterexample.  For the two reviewer rankings `[C, A, B]` and
`[A, C, B]`, the model of label C — not A — is inserted into the tally
first, so the stable sort of the tied 1.5-averages puts `model-c` first:
the returned order is C, A, B, not the claimed A, C, B. -/
theorem c1_order_counterexample :
    (calculate_aggregate_rankings
      [mkSubmission "rev1" "FINAL RANKING:\n1. Response C\n2. Response A\n3. Response B",
       mkSubmission "rev2" "FINAL RANKING:\n1. Response A\n2. Response C\n3. Response B"]
      [(65, "model-a"), (66, "model-b"), (67, "model-c")]).map AggregateRank.model
      = ["model-c", "model-a", "model-b"]
    ∧ (calculate_aggregate_rankings
      [mkSubmission "rev1" "FINAL RANKING:\n1. Response C\n2. Response A\n3. Response B",
       mkSubmission "rev2" "FINAL RANKING:\n1. Response A\n2. Response C\n3. Response B"]
      [(65, "model-a"), (66, "model-b"), (67, "model-c")]).map AggregateRank.model
      ≠ ["model-a", "model-c", "model-b"] := by
  exact ⟨by decide, by decide⟩

/-- C1, amended.  `calculate_aggregate_rankings` on those two rankings
returns mean 1.5 for `model-c` and `model-a` (two contributions each) and
3 for `model-b`, ordered C, A, B: the A–C tie resolves in first-insertion
order and C is the first label encountered in the first submission. -/
theorem c1_aggregate_example :
    calculate_aggregate_rankings
      [mkSubmission "rev1" "FINAL RANKING:\n1. Response C\n2. Response A\n3. Response B",
       mkSubmission "rev2" "FINAL RANKING:\n1. Response A\n2. Response C\n3. Response B"]
      [(65, "model-a"), (66, "model-b"), (67, "model-c")]
      = [⟨"model-c", 150, 2⟩, ⟨"model-a", 150, 2⟩, ⟨"model-b", 300, 2⟩]
    ∧ (AggregateRank.mk "model-c" 150 2).average_rank = 3 / 2
    ∧ (AggregateRank.mk "model-a" 150 2).average_rank = 3 / 2
    ∧ (AggregateRank.mk "model-b" 300 2).average_rank = 3 := by
  refine ⟨by decide, ?_, ?_, ?_⟩ <;> norm_num [AggregateRank.average_rank]

/-- C5.  On each turn, with `r` prior clarification turns in history: the
assessment call is made with `force_followup = true` iff `r < 2`, and the
turn is treated as sufficient without any assessment call iff `r ≥ 4`. -/
theorem c5_clarification_rounds (messages : List ConvMessage) :
    (clarificationDecision (clarification_count messages)
        = ClarityAction.callAssessment true
      ↔ clarification_count messages < 2)
    ∧ ((∃ r, clarificationDecision (clarification_count messages)
          = ClarityAction.skipAssessment r ∧ r.sufficient = true)
      ↔ 4 ≤ clarification_count messages) := by
  have h : ∀ n : Nat,
      (clarificationDecision n = ClarityAction.callAssessment true ↔ n < 2)
      ∧ ((∃ r, clarificationDecision n = ClarityAction.skipAssessment r
            ∧ r.sufficient = true) ↔ 4 ≤ n) := by
    intro n
    unfold clarificationDecision
    split_ifs with h4
    all_goals simp
    all_goals omega
  exact h (clarification_count messages)

/-- C8.  Whenever the clarifier call fails (`None` response or raised
error) or its content does not parse as JSON, `assess_clarity` returns the
fail-open result: `sufficient = true` with the raw latest user message as
the refined topic.  (The model is a total function: every failure path
lands in this fallback rather than raising.) -/
theorem c8_assess_clarity_fail_open
    (parse_json : List Char → Option ClarityResult)
    (response : Option (List Char)) (latest_user_message : String)
    (hfail : response = none
      ∨ ∃ c, response = some c
          ∧ parse_json (stripWs (stripCodeFences c)) = none) :
    assess_clarity parse_json response latest_user_message
        = clarityFallback latest_user_message
    ∧ (assess_clarity parse_json response latest_user_message).sufficient = true
    ∧ (assess_clarity parse_json response latest_user_message).refined_topic
        = some latest_user_message := by
  rcases hfail with h | ⟨c, hc, hp⟩
  · subst h
    exact ⟨rfl, rfl, rfl⟩
  · subst hc
    have h1 : assess_clarity parse_json (some c) latest_user_message
        = clarityFallback latest_user_message := by
      simp only [assess_clarity, hp]
    exact ⟨h1, by rw [h1]; rfl, by rw [h1]; rfl⟩

/-- C8, witness: a failed call and an unparsable reply both produce the
fail-open result for the message `"tell me about AI"`. -/
theorem c8_assess_clarity_fail_open_witness :
    assess_clarity (fun _ => none) (some ("not json").data) "tell me about AI"
        = clarityFallback "tell me about AI"
    ∧ (assess_clarity (fun _ => none) (some ("not json").data)
        "tell me about AI").sufficient = true
    ∧ (assess_clarity (fun _ => none) (some ("not json").data)
        "tell me about AI").refined_topic = some "tell me about AI" :=
  c8_assess_clarity_fail_open (fun _ => none) (some ("not json").data)
    "tell me about AI" (Or.inr ⟨("not json").data, rfl, rfl⟩)

/-- C7, counterexample.  Marker-free text in which `Response A` occurs
twice parses to `[A, A]`: the parser returns every occurrence, not each
distinct label once in order of first appearance. -/
theorem c7_duplicates_counterexample :
    dropThroughFirst FINAL_RANKING_MARKER ("Response A and Response A again").data = none
    ∧ parse_ranking_from_text ("Response A and Response A again").data = [65, 65]
    ∧ parse_ranking_from_text ("Response A and Response A again").data ≠ [65] := by
  exact ⟨by decide, by decide, by decide⟩

/-- C7, amended.  When the text contains no `FINAL RANKING:` marker, the
parser returns exactly the label occurrences found by scanning the whole
text left to right — every occurrence, duplicates included, in order of
appearance. -/
theorem c7_no_marker_scans_whole_text (t : List Char)
    (hnm : dropThroughFirst FINAL_RANKING_MARKER t = none) :
    parse_ranking_from_text t = findLabels t := by
  simp only [parse_ranking_from_text, hnm]

/-- C7, witness: the marker-free degraded path at a concrete input. -/
theorem c7_no_marker_witness :
    parse_ranking_from_text ("I prefer Response B over Response A").data
      = findLabels ("I prefer Response B over Response A").data :=
  c7_no_marker_scans_whole_text ("I prefer Response B over Response A").data
    (by decide)

/-- C3, counterexample.  In the streaming path, even when every Stage-1
call fails (so Stage 1 collects nothing), the generator still emits
`stage2_start` and `stage3_start`: `send_message_stream` has no empty-Stage-1
short circuit, unlike `run_full_council`. -/
theorem c3_stream_counterexample :
    stage1_collect_responses [("m1", none), ("m2", none)] = []
    ∧ ("stage2_start") ∈ send_message_stream_events
        [⟨"assistant", "q1", true, false⟩, ⟨"assistant", "q2", true, false⟩,
         ⟨"assistant", "q3", true, false⟩, ⟨"assistant", "q4", true, true⟩]
        (fun _ => clarityFallback "x") [("m1", none), ("m2", none)] false
    ∧ ("stage3_start") ∈ send_message_stream_events
        [⟨"assistant", "q1", true, false⟩, ⟨"assistant", "q2", true, false⟩,
         ⟨"assistant", "q3", true, false⟩, ⟨"assistant", "q4", true, true⟩]
        (fun _ => clarityFallback "x") [("m1", none), ("m2", none)] false := by
  exact ⟨by decide, by decide, by decide⟩

/-- C3, amended.  `run_full_council` does short-circuit: whenever Stage 1
collects zero responses, it returns the synthetic Stage-3 failure object
with empty Stage-1 and Stage-2 lists and empty metadata, so Stage 2 and
Stage 3 are never invoked on that path. -/
theorem c3_run_full_council_short_circuit (utilityResponse : Option String)
    (stage0Oracle : Stage0Result)
    (stage1Responses stage2Responses : List (String × Option String))
    (chairmanResponse : Option String)
    (hempty : stage1_collect_responses stage1Responses = []) :
    run_full_council utilityResponse stage0Oracle stage1Responses
        stage2Responses chairmanResponse
      = ⟨if check_search_necessity utilityResponse then stage0Oracle else stage0Default,
         [], [], ⟨"error", "All models failed to respond. Please try again."⟩,
         none⟩ := by
  simp [run_full_council, hempty]

/-- C3, witness: the short circuit at a concrete all-failed Stage 1. -/
theorem c3_run_full_council_short_circuit_witness :
    run_full_council none stage0Default [("m1", none)] [] none
      = ⟨stage0Default, [], [],
         ⟨"error", "All models failed to respond. Please try again."⟩, none⟩ := by
  rw [c3_run_full_council_short_circuit none stage0Default [("m1", none)] [] none
    (by decide)]
  decide

/-- Any label produced by `labelAt` is the code of an `[A-Z]` letter. -/
theorem labelAt_bounds {t : List Char} {u : Nat} (h : labelAt t = some u) :
    65 ≤ u ∧ u ≤ 90 := by
  unfold labelAt at h
  split at h
  · split at h
    · split at h
      · rename_i hu
        injection h with h'
        subst h'
        unfold isUpperAZ at hu
        simp only [Bool.and_eq_true, decide_eq_true_eq] at hu
        exact hu
      · simp at h
    · simp at h
  · simp at h

/-- Any label produced by `numberedAt` is the code of an `[A-Z]` letter. -/
theorem numberedAt_bounds {t : List Char} {u len : Nat}
    (h : numberedAt t = some (u, len)) : 65 ≤ u ∧ u ≤ 90 := by
  unfold numberedAt at h
  split at h
  · simp at h
  · split at h
    · rename_i r1 heq
      split at h
      · rename_i u0 hl
        injection h with h'
        obtain ⟨h1, h2⟩ := Prod.mk.injEq .. ▸ h'
        exact h1 ▸ labelAt_bounds hl
      · simp at h
    · simp at h

/-- Every label collected by the plain-token scanner is an `[A-Z]` code. -/
theorem findLabelsAux_bounds : ∀ (t : List Char) (skip u : Nat),
    u ∈ findLabelsAux skip t → 65 ≤ u ∧ u ≤ 90 := by
  intro t
  induction t with
  | nil =>
    intro skip u h
    simp [findLabelsAux] at h
  | cons c rest ih =>
    intro skip u h
    match skip with
    | s + 1 =>
      simp only [findLabelsAux] at h
      exact ih s u h
    | 0 =>
      simp only [findLabelsAux] at h
      rcases hl : labelAt (c :: rest) with _ | u0 <;> rw [hl] at h
      · exact ih 0 u h
      · rcases List.mem_cons.mp h with h1 | h2
        · exact h1 ▸ labelAt_bounds hl
        · exact ih 9 u h2

/-- Every label collected by the numbered-list scanner is an `[A-Z]` code. -/
theorem findNumberedLabelsAux_bounds : ∀ (t : List Char) (skip u : Nat),
    u ∈ findNumberedLabelsAux skip t → 65 ≤ u ∧ u ≤ 90 := by
  intro t
  induction t with
  | nil =>
    intro skip u h
    simp [findNumberedLabelsAux] at h
  | cons c rest ih =>
    intro skip u h
    match skip with
    | s + 1 =>
      simp only [findNumberedLabelsAux] at h
      exact ih s u h
    | 0 =>
      simp only [findNumberedLabelsAux] at h
      rcases hl : numberedAt (c :: rest) with _ | ⟨u0, len⟩ <;> rw [hl] at h
      · exact ih 0 u h
      · rcases List.mem_cons.mp h with h1 | h2
        · exact h1 ▸ numberedAt_bounds hl
        · exact ih (len - 1) u h2

/-- Every entry of a parsed ranking is the code of an `[A-Z]` letter. -/
theorem parse_ranking_bounds (t : List Char) :
    ∀ u ∈ parse_ranking_from_text t, 65 ≤ u ∧ u ≤ 90 := by
  intro u h
  unfold parse_ranking_from_text at h
  rcases hd : dropThroughFirst FINAL_RANKING_MARKER t with _ | afterM <;>
    rw [hd] at h
  · exact findLabelsAux_bounds t 0 u h
  · simp only [] at h
    split_ifs at h with hne
    · exact findNumberedLabelsAux_bounds _ 0 u h
    · exact findLabelsAux_bounds _ 0 u h

/-- C6, counterexample.  With a single Stage-1 survivor the run's bijection
holds only label `A` (code 65), yet a reviewer text naming `Response Z`
yields a stored `parsed_ranking` of `[90]` — a label outside the current
bijection. -/
theorem c6_out_of_bijection_counterexample :
    ((stage2_collect_rankings [⟨"m1", "r1"⟩]
        [("rev1", some "FINAL RANKING:\n1. Response Z")]).1).map
        RankingSubmission.parsed_ranking = [[90]]
    ∧ ((stage2_collect_rankings [⟨"m1", "r1"⟩]
        [("rev1", some "FINAL RANKING:\n1. Response Z")]).2).map Prod.fst = [65]
    ∧ ¬ (90 ∈ ((stage2_collect_rankings [⟨"m1", "r1"⟩]
        [("rev1", some "FINAL RANKING:\n1. Response Z")]).2).map Prod.fst) := by
  exact ⟨by decide, by decide, by decide⟩

/-- C6, amended.  The parsed sequence stored in a `RankingSubmission` is
not filtered against the run's bijection; what does hold is that every
stored entry is a `Response X` token for some uppercase letter `X`
(codes 65–90) — entries outside the bijection are only discarded later, by
the aggregator's `label in label_to_model` test. -/
theorem c6_parsed_labels_upper_range (stage1_results : List CouncilResponse)
    (responses : List (String × Option String)) (sub : RankingSubmission)
    (hsub : sub ∈ (stage2_collect_rankings stage1_results responses).1)
    (u : Nat) (hu : u ∈ sub.parsed_ranking) : 65 ≤ u ∧ u ≤ 90 := by
  unfold stage2_collect_rankings at hsub
  simp only [List.mem_filterMap] at hsub
  obtain ⟨p, _, hp⟩ := hsub
  rcases hr : p.2 with _ | txt <;> rw [hr] at hp
  · simp at hp
  · simp only [Option.map_some'] at hp
    injection hp with hp'
    have : sub.parsed_ranking = parse_ranking_from_text txt.data := by
      rw [← hp']
    rw [this] at hu
    exact parse_ranking_bounds txt.data u hu

/-- C6, witness: bounds obtained through the theorem for the submission
stored from a concrete reviewer reply. -/
theorem c6_parsed_labels_upper_range_witness : 65 ≤ 90 ∧ 90 ≤ 90 :=
  c6_parsed_labels_upper_range [⟨"m1", "r1"⟩]
    [("rev1", some "FINAL RANKING:\n1. Response Z")]
    ⟨"rev1", ("FINAL RANKING:\n1. Response Z").data, [90]⟩ (by decide)
    90 (by decide)

/-- C2.  For every non-empty Stage-1 result list whose model identifiers
are distinct (they are keys of the fan-out response dict), Stage 2 assigns
the labels `chr(65+i)` in collection order: the key column of
`label_to_model` is exactly `stage2_labels N`, the value column is exactly
the surviving models in order, both columns are duplicate-free — a
bijection between the `N` labels and the `N` models. -/
theorem c2_label_bijection (stage1_results : List CouncilResponse)
    (responses : List (String × Option String))
    (hne : stage1_results ≠ [])
    (hnd : (stage1_results.map CouncilResponse.model).Nodup) :
    ((stage2_collect_rankings stage1_results responses).2).map Prod.fst
        = stage2_labels stage1_results.length
    ∧ ((stage2_collect_rankings stage1_results responses).2).map Prod.snd
        = stage1_results.map CouncilResponse.model
    ∧ (((stage2_collect_rankings stage1_results responses).2).map Prod.fst).Nodup
    ∧ (((stage2_collect_rankings stage1_results responses).2).map Prod.snd).Nodup
    ∧ ((stage2_collect_rankings stage1_results responses).2).length
        = stage1_results.length := by
  have _hne := hne
  have hltm : (stage2_collect_rankings stage1_results responses).2
      = (stage2_labels stage1_results.length).zip
          (stage1_results.map CouncilResponse.model) := by
    unfold stage2_collect_rankings
    exact (List.zip_map_right _ _ _).symm
  have hlen : (stage2_labels stage1_results.length).length
      = (stage1_results.map CouncilResponse.model).length := by
    simp [stage2_labels]
  have hfst : ((stage2_collect_rankings stage1_results responses).2).map Prod.fst
      = stage2_labels stage1_results.length := by
    rw [hltm]
    exact List.map_fst_zip _ _ (le_of_eq hlen)
  have hsnd : ((stage2_collect_rankings stage1_results responses).2).map Prod.snd
      = stage1_results.map CouncilResponse.model := by
    rw [hltm]
    exact List.map_snd_zip _ _ (le_of_eq hlen.symm)
  have hlabels : (stage2_labels stage1_results.length).Nodup := by
    unfold stage2_labels
    exact (List.nodup_range _).map (fun a b hab => by omega)
  refine ⟨hfst, hsnd, ?_, ?_, ?_⟩
  · rw [hfst]; exact hlabels
  · rw [hsnd]; exact hnd
  · rw [hltm, List.length_zip, hlen]
    simp

/-- C2, witness: the bijection at a concrete two-survivor Stage 1. -/
theorem c2_label_bijection_witness :
    ((stage2_collect_rankings [⟨"m1", "r1"⟩, ⟨"m2", "r2"⟩] []).2).map Prod.fst
        = stage2_labels ([(⟨"m1", "r1"⟩ : CouncilResponse), ⟨"m2", "r2"⟩].length)
    ∧ ((stage2_collect_rankings [⟨"m1", "r1"⟩, ⟨"m2", "r2"⟩] []).2).map Prod.snd
        = [(⟨"m1", "r1"⟩ : CouncilResponse), ⟨"m2", "r2"⟩].map CouncilResponse.model
    ∧ (((stage2_collect_rankings [⟨"m1", "r1"⟩, ⟨"m2", "r2"⟩] []).2).map Prod.fst).Nodup
    ∧ (((stage2_collect_rankings [⟨"m1", "r1"⟩, ⟨"m2", "r2"⟩] []).2).map Prod.snd).Nodup
    ∧ ((stage2_collect_rankings [⟨"m1", "r1"⟩, ⟨"m2", "r2"⟩] []).2).length
        = [(⟨"m1", "r1"⟩ : CouncilResponse), ⟨"m2", "r2"⟩].length :=
  c2_label_bijection [⟨"m1", "r1"⟩, ⟨"m2", "r2"⟩] [] (by decide) (by decide)

/-- C9, counterexample.  For `"a. bcdefghijk"` under a ceiling of 10, a
sentence boundary (`". "`) does lie inside the 10-character prefix, yet the
period sits at index 1 ≤ 10/2, so the code still appends the ellipsis and
returns 13 > 10 characters: "no boundary within the limit" is not the
condition gating the overflow. -/
theorem c9_ellipsis_counterexample :
    (searchPunctWsEnd (("a. bcdefghijk").data.take 10)).isSome = true
    ∧ (truncate_with_sentence_boundary ("a. bcdefghijk").data 10 false).length = 13
    ∧ 10 < 13 := by
  exact ⟨by decide, by decide, by decide⟩

/-- C9, amended.  For every text, every positive ceiling and either
truncation direction, the result either fits the ceiling or is exactly the
truncated prefix plus `"..."`, overshooting by exactly the ellipsis length
(3); the ellipsis branch fires whenever the reversed-prefix regex finds no
boundary and the last period is absent or at or before half the ceiling —
which can happen even when a boundary exists within the limit. -/
theorem c9_truncate_ceiling (text : List Char) (max_chars : Nat)
    (preserve_end : Bool) (hpos : 0 < max_chars) :
    (truncate_with_sentence_boundary text max_chars preserve_end).length
        ≤ max_chars
    ∨ (truncate_with_sentence_boundary text max_chars preserve_end
          = text.take max_chars ++ ("...").data
        ∧ (truncate_with_sentence_boundary text max_chars preserve_end).length
          = max_chars + 3) := by
  have h3 : (("...").data).length = 3 := by decide
  unfold truncate_with_sentence_boundary
  split_ifs with hlen hpe
  · left
    exact hlen
  · split
    · left
      simp only [List.length_drop]
      omega
    · left
      simp only [List.length_drop]
      omega
  · split
    · split_ifs with hs0
      · left
        simp
      · left
        simp only [List.length_take]
        omega
    · split
      · split_ifs with hlp
        · left
          simp only [List.length_take]
          omega
        · right
          refine ⟨rfl, ?_⟩
          simp only [List.length_append, List.length_take, h3]
          omega
      · right
        refine ⟨rfl, ?_⟩
        simp only [List.length_append, List.length_take, h3]
        omega

/-- C9, witness: a text with no boundary at all takes the ellipsis branch
at ceiling 2. -/
theorem c9_truncate_ceiling_witness :
    (truncate_with_sentence_boundary ("abcd").data 2 false).length ≤ 2
    ∨ (truncate_with_sentence_boundary ("abcd").data 2 false
          = ("abcd").data.take 2 ++ ("...").data
        ∧ (truncate_with_sentence_boundary ("abcd").data 2 false).length
          = 2 + 3) :=
  c9_truncate_ceiling ("abcd").data 2 false (by decide)

/-- When each iteration advances by at least one position, fuel exceeding
the remaining distance makes the chunking loop finish. -/
theorem chunk_text_loop_isSome (text : List Char) (cs ov : Nat)
    (hstep : 1 ≤ cs - ov) :
    ∀ (fuel start : Nat), text.length - start < fuel →
      (chunk_text_loop text cs ov fuel start).isSome = true := by
  intro fuel
  induction fuel with
  | zero =>
    intro start h
    omega
  | succ f ih =>
    intro start h
    simp only [chunk_text_loop]
    split_ifs with hlt
    · rcases hrec : chunk_text_loop text cs ov f (start + (cs - ov)) with _ | rest
      · have := ih (start + (cs - ov)) (by omega)
        rw [hrec] at this
        simp at this
      · simp
    · simp

/-- With a non-positive step the loop never finishes on a non-empty text,
whatever the fuel (the Python loop runs forever). -/
theorem chunk_text_loop_stuck (text : List Char) (cs ov : Nat)
    (hstep : cs - ov = 0) (hlen : 0 < text.length) :
    ∀ fuel, chunk_text_loop text cs ov fuel 0 = none := by
  intro fuel
  induction fuel with
  | zero => rfl
  | succ f ih =>
    simp only [chunk_text_loop, hstep, Nat.add_zero, ih]
    rw [if_pos hlen]

/-- Characterization of a finished chunking loop: chunk `i` is the slice
of length `chunk_size` starting at `start + i·step`, every chunk start is
inside the text, and the loop stopped only once the next start passed the
end. -/
theorem chunk_text_loop_spec (text : List Char) (cs ov : Nat) :
    ∀ (fuel start : Nat) (chunks : List (List Char)),
      chunk_text_loop text cs ov fuel start = some chunks →
      chunks = (List.range chunks.length).map
          (fun i => (text.drop (start + i * (cs - ov))).take cs)
      ∧ (∀ i < chunks.length, start + i * (cs - ov) < text.length)
      ∧ text.length ≤ start + chunks.length * (cs - ov) := by
  intro fuel
  induction fuel with
  | zero =>
    intro start chunks h
    cases h
  | succ f ih =>
    intro start chunks h
    simp only [chunk_text_loop] at h
    split_ifs at h with hlt
    · rcases hrec : chunk_text_loop text cs ov f (start + (cs - ov)) with _ | rest <;>
        rw [hrec] at h
      · cases h
      · injection h with h'
        subst h'
        obtain ⟨ih1, ih2, ih3⟩ := ih (start + (cs - ov)) rest hrec
        refine ⟨?_, ?_, ?_⟩
        · rw [List.length_cons, List.range_succ_eq_map, List.map_cons, List.map_map]
          congr 1
          · simp
          · conv_lhs => rw [ih1]
            apply List.map_congr_left
            intro i _
            have harith : start + (cs - ov) + i * (cs - ov)
                = start + (i + 1) * (cs - ov) := by
              rw [Nat.succ_mul]
              omega
            simp only [Function.comp_apply, Nat.succ_eq_add_one]
            rw [← harith]
        · intro i hi
          match i with
          | 0 => simpa using hlt
          | j + 1 =>
            have hj := ih2 j (by simp at hi; omega)
            have harith : start + (cs - ov) + j * (cs - ov)
                = start + (j + 1) * (cs - ov) := by
              rw [Nat.succ_mul]
              omega
            rw [← harith]
            exact hj
        · rw [List.length_cons]
          have harith : start + (cs - ov) + rest.length * (cs - ov)
              = start + (rest.length + 1) * (cs - ov) := by
            rw [Nat.succ_mul]
            omega
          rw [← harith]
          exact ih3
    · injection h with h'
      subst h'
      refine ⟨rfl, ?_, ?_⟩
      · intro i hi
        simp at hi
      · simpa using hlt

/-- C10, counterexample.  `chunk_text "abcde" 4 2` yields `"abcd"`,
`"cde"`, `"e"`: the second and third chunks share exactly one position
(position 4), not `overlap = 2` — consecutive chunks do not always overlap
by exactly `overlap` characters. -/
theorem c10_overlap_counterexample :
    chunk_text ("abcde").data 4 2 = [("abcd").data, ("cde").data, ("e").data]
    ∧ chunkOverlap ("abcde").data 4 2 1 = 1
    ∧ (1 : Nat) ≠ 2 := by
  exact ⟨by decide, by decide, by decide⟩

/-- C10, amended.  The loop finishes for every text iff
`chunk_size > overlap`.  Under that precondition: chunk `i` is the
`chunk_size`-bounded slice starting at `i·(chunk_size−overlap)`, so every
chunk fits `chunk_size`; the first chunk starts at position 0; every chunk
starts inside the text and the final start passes the end (the last chunk
reaches the end of the text); consecutive chunks leave no gap; and the
shared region of chunks `i` and `i+1` is exactly `overlap` characters
whenever chunk `i` is not truncated by the end of the text (it is smaller
when it is truncated, as in the counterexample). -/
theorem c10_chunk_text_correct (cs ov : Nat) :
    ((∀ t : List Char, ∃ fuel, (chunk_text_loop t cs ov fuel 0).isSome = true)
      ↔ ov < cs)
    ∧ ∀ text : List Char, ov < cs →
        chunk_text_loop text cs ov (text.length + 1) 0
            = some (chunk_text text cs ov)
        ∧ chunk_text text cs ov
            = (List.range (chunk_text text cs ov).length).map
                (fun i => (text.drop (i * (cs - ov))).take cs)
        ∧ (∀ c ∈ chunk_text text cs ov, c.length ≤ cs)
        ∧ (∀ i < (chunk_text text cs ov).length, i * (cs - ov) < text.length)
        ∧ text.length ≤ (chunk_text text cs ov).length * (cs - ov)
        ∧ (text ≠ [] → (chunk_text text cs ov).head? = some (text.take cs))
        ∧ (∀ i, i + 1 < (chunk_text text cs ov).length →
            (i + 1) * (cs - ov) ≤ min (i * (cs - ov) + cs) text.length)
        ∧ (∀ i, i + 1 < (chunk_text text cs ov).length →
            i * (cs - ov) + cs ≤ text.length → chunkOverlap text cs ov i = ov) := by
  constructor
  · constructor
    · intro hall
      by_contra hov
      have hstep : cs - ov = 0 := by omega
      obtain ⟨fuel, hfuel⟩ := hall [' ']
      rw [chunk_text_loop_stuck [' '] cs ov hstep (by decide) fuel] at hfuel
      simp at hfuel
    · intro hov t
      exact ⟨t.length + 1,
        chunk_text_loop_isSome t cs ov (by omega) (t.length + 1) 0 (by omega)⟩
  · intro text hov
    have hstep : 1 ≤ cs - ov := by omega
    rcases hloop : chunk_text_loop text cs ov (text.length + 1) 0 with _ | chunks
    · have := chunk_text_loop_isSome text cs ov hstep (text.length + 1) 0 (by omega)
      rw [hloop] at this
      simp at this
    · have hchunk : chunk_text text cs ov = chunks := by
        simp [chunk_text, hloop]
      obtain ⟨h1, h2, h3⟩ := chunk_text_loop_spec text cs ov (text.length + 1) 0
        chunks hloop
      simp only [Nat.zero_add] at h1 h2 h3
      rw [hchunk]
      refine ⟨rfl, h1, ?_, h2, h3, ?_, ?_, ?_⟩
      · intro c hcm
        rw [h1] at hcm
        obtain ⟨i, _, hci⟩ := List.mem_map.mp hcm
        rw [← hci]
        simp only [List.length_take]
        exact Nat.min_le_left _ _
      · intro hne
        rcases hcc : chunks with _ | ⟨c0, crest⟩
        · rw [hcc] at h3
          simp only [List.length_nil, Nat.zero_mul, Nat.le_zero] at h3
          exact absurd (List.eq_nil_of_length_eq_zero h3) hne
        · rw [hcc] at h1
          rw [List.length_cons, List.range_succ_eq_map, List.map_cons] at h1
          injection h1 with hh _
          simp only [List.head?_cons, hh]
          simp
      · intro i hi
        have e1 : (i + 1) * (cs - ov) = i * (cs - ov) + (cs - ov) :=
          Nat.succ_mul i (cs - ov)
        have h4i := h2 (i + 1) hi
        have hsub : cs - ov ≤ cs := Nat.sub_le cs ov
        rw [e1] at h4i ⊢
        set k := i * (cs - ov) with hk
        omega
      · intro i hi hfull
        unfold chunkOverlap
        have e1 : (i + 1) * (cs - ov) = i * (cs - ov) + (cs - ov) :=
          Nat.succ_mul i (cs - ov)
        rw [e1]
        set k := i * (cs - ov) with hk
        omega

/-- C10, witness: at `chunk_size = 4`, `overlap = 2` on `"abcde"` the
chunking both terminates and starts with the full prefix `"abcd"`. -/
theorem c10_chunk_text_correct_witness :
    2 < 4 ∧ (chunk_text ("abcde").data 4 2).head? = some (("abcde").data.take 4) :=
  ⟨by decide,
    (((c10_chunk_text_correct 4 2).2 ("abcde").data (by decide)).2.2.2.2.2.1
      (by decide))⟩

/-- Recording one parsed ranking is a fold of `addPosition` over the
submission's (model, position) pairs. -/
theorem recordParsed_eq_foldl (ltm : List (Nat × String))
    (tally : List (String × List Nat)) (r : RankingSubmission) :
    recordParsed ltm tally (parse_ranking_from_text r.ranking)
      = (pairsOfSubmission ltm r).foldl (fun t p => addPosition t p.1 p.2) tally := by
  unfold recordParsed pairsOfSubmission
  generalize (parse_ranking_from_text r.ranking).enum = l
  induction l generalizing tally with
  | nil => rfl
  | cons x xs ih =>
    rcases hf : dictFind ltm x.2 with _ | m <;>
      simp only [List.foldl_cons, List.filterMap_cons, hf, Option.map_none',
        Option.map_some'] <;>
      exact ih _

/-- The whole tally is a fold of `addPosition` over all pairs of all
submissions, in processing order. -/
theorem foldl_recordParsed_eq (ltm : List (Nat × String)) :
    ∀ (results : List RankingSubmission) (t : List (String × List Nat)),
      results.foldl
          (fun t r => recordParsed ltm t (parse_ranking_from_text r.ranking)) t
        = (results.flatMap (pairsOfSubmission ltm)).foldl
            (fun t p => addPosition t p.1 p.2) t := by
  intro results
  induction results with
  | nil => intro t; rfl
  | cons r rs ih =>
    intro t
    simp only [List.foldl_cons, List.flatMap_cons, List.foldl_append]
    rw [recordParsed_eq_foldl, ih]

/-- `addPosition` appends `p` to the first entry keyed `m` (the Python
dict entry), leaving every other key's value unchanged. -/
theorem valueAt_addPosition (tally : List (String × List Nat))
    (m : String) (p : Nat) (q : String) :
    valueAt (addPosition tally m p) q
      = if q = m then valueAt tally q ++ [p] else valueAt tally q := by
  induction tally with
  | nil =>
    by_cases h : q = m
    · subst h
      simp [addPosition, valueAt, List.find?]
    · simp [addPosition, valueAt, List.find?, h, Ne.symm h]
  | cons e rest ih =>
    by_cases he : e.1 = m
    · rw [addPosition, if_pos he]
      by_cases hq : q = e.1
      · subst hq
        simp [valueAt, List.find?, he]
      · rw [if_neg (by rw [← he] at *; exact hq)]
        simp [valueAt, List.find?, Ne.symm hq]
    · rw [addPosition, if_neg he]
      by_cases hq : q = e.1
      · subst hq
        have : e.1 ≠ m := he
        rw [if_neg this]
        simp [valueAt, List.find?]
      · by_cases hm : q = m
        · rw [if_pos hm]
          have h1 : valueAt (e :: addPosition rest m p) q
              = valueAt (addPosition rest m p) q := by
            simp [valueAt, List.find?, Ne.symm hq]
          have h2 : valueAt (e :: rest) q = valueAt rest q := by
            simp [valueAt, List.find?, Ne.symm hq]
          rw [h1, h2, ih, if_pos hm]
        · rw [if_neg hm]
          have h1 : valueAt (e :: addPosition rest m p) q
              = valueAt (addPosition rest m p) q := by
            simp [valueAt, List.find?, Ne.symm hq]
          have h2 : valueAt (e :: rest) q = valueAt rest q := by
            simp [valueAt, List.find?, Ne.symm hq]
          rw [h1, h2, ih, if_neg hm]

/-- Keys after `addPosition`: the old keys plus possibly `m`. -/
theorem mem_keys_addPosition (tally : List (String × List Nat))
    (m : String) (p : Nat) (q : String) :
    q ∈ (addPosition tally m p).map Prod.fst
      ↔ q ∈ tally.map Prod.fst ∨ q = m := by
  induction tally with
  | nil => simp [addPosition]
  | cons e rest ih =>
    by_cases he : e.1 = m
    · rw [addPosition, if_pos he]
      simp [he]
      tauto
    · rw [addPosition, if_neg he]
      simp only [List.map_cons, List.mem_cons, ih]
      tauto

/-- `addPosition` never duplicates a key. -/
theorem nodup_keys_addPosition (tally : List (String × List Nat))
    (m : String) (p : Nat) (h : (tally.map Prod.fst).Nodup) :
    ((addPosition tally m p).map Prod.fst).Nodup := by
  induction tally with
  | nil => simp [addPosition]
  | cons e rest ih =>
    simp only [List.map_cons, List.nodup_cons] at h
    by_cases he : e.1 = m
    · rw [addPosition, if_pos he]
      simp only [List.map_cons, List.nodup_cons]
      exact h
    · rw [addPosition, if_neg he]
      simp only [List.map_cons, List.nodup_cons]
      refine ⟨?_, ih h.2⟩
      rw [mem_keys_addPosition]
      push_neg
      exact ⟨h.1, he⟩

/-- Folding pairs into the tally appends, per key, exactly the second
components of the pairs carrying that key, in order. -/
theorem valueAt_foldl_addPosition :
    ∀ (pairs : List (String × Nat)) (t : List (String × List Nat)) (m : String),
      valueAt (pairs.foldl (fun t p => addPosition t p.1 p.2) t) m
        = valueAt t m ++ (pairs.filter (fun p => p.1 = m)).map Prod.snd := by
  intro pairs
  induction pairs with
  | nil =>
    intro t m
    simp
  | cons x xs ih =>
    intro t m
    simp only [List.foldl_cons]
    rw [ih, valueAt_addPosition]
    by_cases h : m = x.1
    · rw [if_pos h]
      rw [List.filter_cons, if_pos (by simp [h])]
      simp
    · rw [if_neg h]
      rw [List.filter_cons, if_neg (by simp; exact fun hEq => h hEq.symm)]

/-- Keys of the folded tally: old keys plus the keys of the pairs. -/
theorem mem_keys_foldl_addPosition :
    ∀ (pairs : List (String × Nat)) (t : List (String × List Nat)) (q : String),
      q ∈ ((pairs.foldl (fun t p => addPosition t p.1 p.2) t).map Prod.fst)
        ↔ q ∈ t.map Prod.fst ∨ q ∈ pairs.map Prod.fst := by
  intro pairs
  induction pairs with
  | nil =>
    intro t q
    simp
  | cons x xs ih =>
    intro t q
    simp only [List.foldl_cons]
    rw [ih, mem_keys_addPosition]
    simp
    tauto

/-- The folded tally keeps its keys duplicate-free. -/
theorem nodup_keys_foldl_addPosition :
    ∀ (pairs : List (String × Nat)) (t : List (String × List Nat)),
      (t.map Prod.fst).Nodup →
      ((pairs.foldl (fun t p => addPosition t p.1 p.2) t).map Prod.fst).Nodup := by
  intro pairs
  induction pairs with
  | nil =>
    intro t h
    simpa using h
  | cons x xs ih =>
    intro t h
    simp only [List.foldl_cons]
    exact ih _ (nodup_keys_addPosition t x.1 x.2 h)

/-- In a tally with duplicate-free keys, `find?` at a member's key returns
that member. -/
theorem find?_mem_nodup :
    ∀ (tally : List (String × List Nat)) (e : String × List Nat),
      (tally.map Prod.fst).Nodup → e ∈ tally →
      tally.find? (fun x => x.1 = e.1) = some e := by
  intro tally
  induction tally with
  | nil =>
    intro e _ he
    cases he
  | cons a rest ih =>
    intro e hnd he
    simp only [List.map_cons, List.nodup_cons] at hnd
    rcases List.mem_cons.mp he with h1 | h2
    · subst h1
      simp [List.find?]
    · have ha : (decide (a.1 = e.1)) = false := by
        apply decide_eq_false
        intro hEq
        exact hnd.1 (hEq ▸ List.mem_map.mpr ⟨e, h2, rfl⟩)
      rw [List.find?, ha]
      exact ih e hnd.2 h2

/-- The per-submission position list is the filtered pair list. -/
theorem positionsInSubmission_eq (ltm : List (Nat × String)) (m : String)
    (r : RankingSubmission) :
    positionsInSubmission ltm m r
      = ((pairsOfSubmission ltm r).filter (fun p => p.1 = m)).map Prod.snd := by
  unfold positionsInSubmission pairsOfSubmission
  generalize (parse_ranking_from_text r.ranking).enum = l
  induction l with
  | nil => rfl
  | cons x xs ih =>
    rcases hf : dictFind ltm x.2 with _ | m0
    · simpa [List.filterMap_cons, hf] using ih
    · by_cases hm : m0 = m
      · subst hm
        simpa [List.filterMap_cons, hf, List.filter_cons] using ih
      · simpa [List.filterMap_cons, hf, List.filter_cons, hm] using ih

/-- `specPositions` across submissions is the filtered flat pair list. -/
theorem specPositions_eq_filter (results : List RankingSubmission)
    (ltm : List (Nat × String)) (m : String) :
    specPositions results ltm m
      = ((results.flatMap (pairsOfSubmission ltm)).filter
          (fun p => p.1 = m)).map Prod.snd := by
  unfold specPositions
  induction results with
  | nil => rfl
  | cons r rs ih =>
    simp only [List.flatMap_cons, List.filter_append, List.map_append, ih,
      positionsInSubmission_eq]

/-- Membership in a stable insertion keeps exactly the old elements plus
the inserted one. -/
theorem mem_insertByRank (x a : AggregateRank) :
    ∀ l, a ∈ insertByRank x l ↔ a = x ∨ a ∈ l := by
  intro l
  induction l with
  | nil => simp [insertByRank]
  | cons y ys ih =>
    rw [insertByRank]
    split_ifs with h
    · rw [List.mem_cons, ih, List.mem_cons]
      tauto
    · simp only [List.mem_cons]

/-- The stable sort is a permutation membership-wise. -/
theorem mem_sortByRank (a : AggregateRank) (l : List AggregateRank) :
    a ∈ sortByRank l ↔ a ∈ l := by
  have h : ∀ (l acc : List AggregateRank),
      a ∈ l.foldl (fun acc x => insertByRank x acc) acc ↔ a ∈ acc ∨ a ∈ l := by
    intro l
    induction l with
    | nil =>
      intro acc
      simp
    | cons x xs ih =>
      intro acc
      simp only [List.foldl_cons]
      rw [ih, mem_insertByRank]
      simp only [List.mem_cons]
      tauto
  unfold sortByRank
  rw [h]
  simp

/-- C4, counterexample.  Three reviewers rank the model of label A at
positions 1, 1, 2: the exact mean is 4/3, but the reported average is
`round(4/3, 2) = 1.33 ≠ 4/3` — and with a duplicated label in one
marker-free submission, the mean divides by the occurrence count (2), not
by the number of submissions in which the label appears (1). -/
theorem c4_rounding_counterexample :
    calculate_aggregate_rankings
      [mkSubmission "r1" "FINAL RANKING:\n1. Response A\n2. Response B",
       mkSubmission "r2" "FINAL RANKING:\n1. Response A\n2. Response B",
       mkSubmission "r3" "FINAL RANKING:\n1. Response B\n2. Response A"]
      [(65, "m1"), (66, "m2")]
      = [⟨"m1", 133, 3⟩, ⟨"m2", 167, 3⟩]
    ∧ specPositions
        [mkSubmission "r1" "FINAL RANKING:\n1. Response A\n2. Response B",
         mkSubmission "r2" "FINAL RANKING:\n1. Response A\n2. Response B",
         mkSubmission "r3" "FINAL RANKING:\n1. Response B\n2. Response A"]
        [(65, "m1"), (66, "m2")] "m1" = [1, 1, 2]
    ∧ (AggregateRank.mk "m1" 133 3).average_rank ≠ ((1 : ℚ) + 1 + 2) / 3
    ∧ calculate_aggregate_rankings
        [mkSubmission "r1" "Response A is strong; overall Response A beats Response B"]
        [(65, "m1"), (66, "m2")]
        = [⟨"m1", 150, 2⟩, ⟨"m2", 300, 1⟩]
    ∧ (AggregateRank.mk "m1" 150 2).average_rank ≠ ((1 : ℚ) + 2) / 1 := by
  refine ⟨by decide, by decide, ?_, by decide, ?_⟩
  · unfold AggregateRank.average_rank
    norm_num
  · unfold AggregateRank.average_rank
    norm_num

/-- C4, amended.  Every entry of `calculate_aggregate_rankings` reports,
for its model, the mean of all recorded 1-based positions — one per
occurrence of a label mapped to that model in each re-parsed submission,
unmapped labels contributing nothing — rounded to two decimals
(`average_rank_cents = roundCents (sum) (count)`), with `rankings_count`
the occurrence count; and a model with no recorded position is absent from
the output. -/
theorem c4_aggregate_mean (results : List RankingSubmission)
    (ltm : List (Nat × String)) :
    (∀ e ∈ calculate_aggregate_rankings results ltm,
        specPositions results ltm e.model ≠ []
        ∧ e.rankings_count = (specPositions results ltm e.model).length
        ∧ e.average_rank_cents
            = roundCents (specPositions results ltm e.model).sum
                (specPositions results ltm e.model).length)
    ∧ (∀ m, specPositions results ltm m = [] →
        ∀ e ∈ calculate_aggregate_rankings results ltm, e.model ≠ m) := by
  have hmain : ∀ e ∈ calculate_aggregate_rankings results ltm,
      specPositions results ltm e.model ≠ []
      ∧ e.rankings_count = (specPositions results ltm e.model).length
      ∧ e.average_rank_cents
          = roundCents (specPositions results ltm e.model).sum
              (specPositions results ltm e.model).length := by
    intro e he
    unfold calculate_aggregate_rankings at he
    rw [mem_sortByRank] at he
    obtain ⟨entry, hentry, hmk⟩ := List.mem_filterMap.mp he
    rw [foldl_recordParsed_eq] at hentry
    split_ifs at hmk with hne
    · injection hmk with hmk'
      have hnd : (((results.flatMap (pairsOfSubmission ltm)).foldl
          (fun t p => addPosition t p.1 p.2) []).map Prod.fst).Nodup :=
        nodup_keys_foldl_addPosition _ [] (by simp)
      have hval : valueAt ((results.flatMap (pairsOfSubmission ltm)).foldl
          (fun t p => addPosition t p.1 p.2) []) entry.1 = entry.2 := by
        rw [valueAt]
        rw [find?_mem_nodup _ entry hnd hentry]
        rfl
      have hspec : entry.2 = specPositions results ltm entry.1 := by
        rw [← hval, valueAt_foldl_addPosition, specPositions_eq_filter]
        rfl
      subst hmk'
      refine ⟨?_, ?_, ?_⟩
      · rw [← hspec]
        exact hne
      · rw [← hspec]
      · rw [← hspec]
  refine ⟨hmain, ?_⟩
  intro m hm e he hEq
  have h1 := (hmain e he).1
  rw [hEq] at h1
  exact h1 hm

/-- C4, witness: the amended statement evaluated at the three-reviewer
counterexample input, for the entry of model `m1`. -/
theorem c4_aggregate_mean_witness :
    specPositions
        [mkSubmission "r1" "FINAL RANKING:\n1. Response A\n2. Response B",
         mkSubmission "r2" "FINAL RANKING:\n1. Response A\n2. Response B",
         mkSubmission "r3" "FINAL RANKING:\n1. Response B\n2. Response A"]
        [(65, "m1"), (66, "m2")] (AggregateRank.mk "m1" 133 3).model ≠ []
    ∧ (AggregateRank.mk "m1" 133 3).rankings_count
        = (specPositions
            [mkSubmission "r1" "FINAL RANKING:\n1. Response A\n2. Response B",
             mkSubmission "r2" "FINAL RANKING:\n1. Response A\n2. Response B",
             mkSubmission "r3" "FINAL RANKING:\n1. Response B\n2. Response A"]
            [(65, "m1"), (66, "m2")] (AggregateRank.mk "m1" 133 3).model).length
    ∧ (AggregateRank.mk "m1" 133 3).average_rank_cents
        = roundCents
            (specPositions
              [mkSubmission "r1" "FINAL RANKING:\n1. Response A\n2. Response B",
               mkSubmission "r2" "FINAL RANKING:\n1. Response A\n2. Response B",
               mkSubmission "r3" "FINAL RANKING:\n1. Response B\n2. Response A"]
              [(65, "m1"), (66, "m2")] (AggregateRank.mk "m1" 133 3).model).sum
            (specPositions
              [mkSubmission "r1" "FINAL RANKING:\n1. Response A\n2. Response B",
               mkSubmission "r2" "FINAL RANKING:\n1. Response A\n2. Response B",
               mkSubmission "r3" "FINAL RANKING:\n1. Response B\n2. Response A"]
              [(65, "m1"), (66, "m2")] (AggregateRank.mk "m1" 133 3).model).length :=
  (c4_aggregate_mean
    [mkSubmission "r1" "FINAL RANKING:\n1. Response A\n2. Response B",
     mkSubmission "r2" "FINAL RANKING:\n1. Response A\n2. Response B",
     mkSubmission "r3" "FINAL RANKING:\n1. Response B\n2. Response A"]
    [(65, "m1"), (66, "m2")]).1 (AggregateRank.mk "m1" 133 3) (by decide)
